import Mathlib

/-!
Verification of the tiered dataset-location resolver and file-promotion cache of
the mila_datamodules repository, against a shallow embedding of
mila_datamodules/clusters/utils.py (existence oracle and promotion engine) and
mila_datamodules/vision/datasets/adapted_datasets.py (required-file lookup and
location resolver).

Filesystem paths are modelled as lists of components.  A filesystem state is a
map from paths to optional file contents together with a set of directory
paths; a path exists when it is a file or a directory.
-/

namespace MilaDatamodules

/-- A filesystem path, as its list of components. -/
abbrev FPath := List String

/-- Boolean test that p is an initial segment of q, that is, p is q itself or
an ancestor directory of q. -/
def pathLE : FPath → FPath → Bool
  | [], _ => true
  | _ :: _, [] => false
  | a :: p, b :: q => decide (a = b) && pathLE p q

/-- Strict initial segment: p is a proper ancestor of q. -/
def pathLT (p q : FPath) : Bool :=
  pathLE p q && decide (p ≠ q)

theorem pathLE_iff {p q : FPath} : pathLE p q = true ↔ ∃ r, q = p ++ r := by
  induction p generalizing q with
  | nil => simp [pathLE]
  | cons a p ih =>
    cases q with
    | nil => simp [pathLE]
    | cons b q =>
      simp only [pathLE, Bool.and_eq_true, decide_eq_true_eq, ih, List.cons_append,
        List.cons.injEq]
      constructor
      · rintro ⟨hab, r, hr⟩
        exact ⟨r, hab.symm, hr⟩
      · rintro ⟨r, hba, hr⟩
        exact ⟨hba.symm, r, hr⟩

theorem pathLE_refl (p : FPath) : pathLE p p = true :=
  pathLE_iff.2 ⟨[], by simp⟩

theorem pathLE_append (p r : FPath) : pathLE p (p ++ r) = true :=
  pathLE_iff.2 ⟨r, rfl⟩

theorem pathLE_trans {p q r : FPath} (h1 : pathLE p q = true) (h2 : pathLE q r = true) :
    pathLE p r = true := by
  obtain ⟨s, rfl⟩ := pathLE_iff.1 h1
  obtain ⟨t, rfl⟩ := pathLE_iff.1 h2
  exact pathLE_iff.2 ⟨s ++ t, List.append_assoc p s t⟩

theorem pathLE_length_le {p q : FPath} (h : pathLE p q = true) : p.length ≤ q.length := by
  obtain ⟨r, rfl⟩ := pathLE_iff.1 h
  simp

theorem pathLE_antisymm {p q : FPath} (h1 : pathLE p q = true) (h2 : pathLE q p = true) :
    p = q := by
  obtain ⟨r, rfl⟩ := pathLE_iff.1 h1
  have h3 := pathLE_length_le h2
  simp only [List.length_append] at h3
  have h4 : r = [] := by
    have : r.length = 0 := by omega
    exact List.length_eq_zero.1 this
  simp [h4]

theorem pathLE_resolve {p q r : FPath} (h1 : pathLE p r = true) (h2 : pathLE q r = true) :
    pathLE p q = true ∨ pathLE q p = true := by
  induction r generalizing p q with
  | nil =>
    cases p with
    | nil => exact Or.inl rfl
    | cons a p => simp [pathLE] at h1
  | cons c r ih =>
    cases p with
    | nil => exact Or.inl rfl
    | cons a p =>
      cases q with
      | nil => exact Or.inr rfl
      | cons b q =>
        simp only [pathLE, Bool.and_eq_true, decide_eq_true_eq] at h1 h2 ⊢
        obtain ⟨rfl, h1⟩ := h1
        obtain ⟨rfl, h2⟩ := h2
        rcases ih h1 h2 with h | h
        · exact Or.inl ⟨rfl, h⟩
        · exact Or.inr ⟨rfl, h⟩

theorem append_drop_of_pathLE {p q : FPath} (h : pathLE p q = true) :
    p ++ q.drop p.length = q := by
  obtain ⟨r, rfl⟩ := pathLE_iff.1 h
  rw [List.drop_left]

theorem pathLE_dropLast (l : FPath) : pathLE l.dropLast l = true := by
  induction l with
  | nil => rfl
  | cons a l ih =>
    cases l with
    | nil => rfl
    | cons b t =>
      show (decide (a = a) && pathLE (b :: t).dropLast (b :: t)) = true
      simp [ih]

theorem pathLE_append_left {x p q : FPath} : pathLE (x ++ p) (x ++ q) = pathLE p q := by
  induction x with
  | nil => rfl
  | cons a x ih => simp [pathLE, ih]

/-- Under two incomparable roots, no extension of the first root is an
ancestor of an extension of the second root. -/
theorem pathLE_ext_false {src dst : FPath}
    (hsd : pathLE src dst = false) (hds : pathLE dst src = false)
    (r rel : FPath) : pathLE (src ++ r) (dst ++ rel) = false := by
  by_contra hcon
  rw [Bool.not_eq_false] at hcon
  have h1 : pathLE src (dst ++ rel) = true := pathLE_trans (pathLE_append src r) hcon
  have h2 : pathLE dst (dst ++ rel) = true := pathLE_append dst rel
  rcases pathLE_resolve h1 h2 with h3 | h3
  · rw [hsd] at h3
    simp at h3
  · rw [hds] at h3
    simp at h3

/-- A filesystem state: contents of regular files, and which paths are
directories.  Plain Python path-existence semantics are re-derived from these
two maps. -/
structure FS where
  files : FPath → Option String
  dirs : FPath → Bool

/-- Path.exists in the source: the path is a regular file or a directory. -/
def fsExists (fs : FS) (p : FPath) : Bool :=
  (fs.files p).isSome || fs.dirs p

/-- Path.is_dir in the source. -/
def fsIsDir (fs : FS) (p : FPath) : Bool :=
  fs.dirs p

/-- The empty filesystem. -/
def FS.empty : FS :=
  ⟨fun _ => none, fun _ => false⟩

/-- Add a regular file with the given contents; every proper ancestor of the
file becomes a directory.  Used to build concrete test states. -/
def FS.addFile (fs : FS) (p : FPath) (c : String) : FS :=
  { files := fun q => if q = p then some c else fs.files q,
    dirs := fun q => pathLT q p || fs.dirs q }

/-- Add a directory and its ancestors.  Used to build concrete test states. -/
def FS.addDir (fs : FS) (p : FPath) : FS :=
  { fs with dirs := fun q => pathLE q p || fs.dirs q }

/-- destination_path.parent.mkdir(parents=True, exist_ok=True): the given path
and all of its ancestors become directories. -/
def fsMkdirParents (fs : FS) (p : FPath) : FS :=
  { fs with dirs := fun q => pathLE q p || fs.dirs q }

/-- shutil.copy(src, dst): write the contents c at path p, overwriting. -/
def fsWrite (fs : FS) (p : FPath) (c : String) : FS :=
  { fs with files := fun q => if q = p then some c else fs.files q }

/-- shutil.copytree(src, dst, dirs_exist_ok=True): every file of the source
subtree is copied to the corresponding destination path, overwriting existing
destination files; directories of the source subtree are mirrored; the
destination root and its ancestors are created; everything else is kept. -/
def fsCopyTree (fs : FS) (src dst : FPath) : FS where
  files := fun q =>
    if pathLT dst q then
      match fs.files (src ++ q.drop dst.length) with
      | some c => some c
      | none => fs.files q
    else fs.files q
  dirs := fun q =>
    (pathLE dst q && fs.dirs (src ++ q.drop dst.length)) || pathLE q dst || fs.dirs q

/-- all_files_exist from mila_datamodules/clusters/utils.py: every required
relative path exists under the base directory. -/
def all_files_exist (required_files : List FPath) (base_dir : FPath) (fs : FS) : Bool :=
  required_files.all (fun f => fsExists fs (base_dir ++ f))

/-- The copying part of one iteration of the loop of copy_dataset_files,
after the parent directories have been made: copy the source path as a tree if
it is a directory, or as a single file if the destination does not exist
yet, and otherwise leave the filesystem unchanged. -/
def copyStep (fs : FS) (source_path destination_path : FPath) : FS :=
  if fsIsDir fs source_path then
    fsCopyTree fs source_path destination_path
  else if fsExists fs destination_path then
    fs
  else
    match fs.files source_path with
    | some c => fsWrite fs destination_path c
    | none => fs

/-- One iteration of the loop of copy_dataset_files: make the destination
parent directories, then copy the source path. -/
def copyOneFile (source_dir dest_dir : FPath) (fs : FS) (source_file : FPath) : FS :=
  let source_path := source_dir ++ source_file
  let destination_path := dest_dir ++ source_file
  copyStep (fsMkdirParents fs destination_path.dropLast) source_path destination_path

/-- The error conditions of the embedded code.  promotionError models the
AssertionError raised by the assert at the top of copy_dataset_files (the
spec's PromotionError); osError models an OSError raised by the operating
system during a copy; unknownDatasetError models the NotImplementedError of
adapted_constructor (the spec's UnknownDatasetError). -/
inductive ModelError where
  | promotionError
  | osError
  | unknownDatasetError
deriving DecidableEq, Repr

/-- copy_dataset_files from mila_datamodules/clusters/utils.py: assert that
the source satisfies the existence oracle, then copy each required path in
order.  The assert precedes the loop, so on failure nothing has been copied. -/
def copy_dataset_files (files_to_copy : List FPath) (source_dir dest_dir : FPath)
    (fs : FS) : Except ModelError FS :=
  if all_files_exist files_to_copy source_dir fs then
    .ok (files_to_copy.foldl (copyOneFile source_dir dest_dir) fs)
  else
    .error .promotionError

/-- The cluster environment seen by _custom_init: the SLURM_TMPDIR and SCRATCH
roots and the current working directory. -/
structure InitEnv where
  slurm_tmpdir : FPath
  scratch : FPath
  cwd : FPath

/-- _custom_init from adapted_constructor in adapted_datasets.py, as the pure
resolution function: given the required files, whether the dataset is in
too_large_for_slurm_tmpdir, the registered dataset root (some r when
is_stored_on_cluster, none otherwise), the caller-supplied root argument, the
environment and the starting filesystem, it returns the value bound to the
root argument together with the filesystem after any copies, or the error that
escaped.  The io_fails flag models the environment: when true, the operating
system raises an OSError during any attempted copy; the source wraps no
try/except around its copy_dataset_files calls, so such an error escapes. -/
def _custom_init (required_files : List FPath) (too_large : Bool)
    (dataset_root : Option FPath) (original_root : Option FPath)
    (env : InitEnv) (io_fails : Bool) (fs : FS) :
    Except ModelError (Option FPath × FS) :=
  let fast_tmp_dir := env.slurm_tmpdir ++ ["data"]
  let scratch_dir := env.scratch ++ ["data"]
  let finish := fun (new_root : Option FPath) (fs' : FS) =>
    Except.ok ((match new_root with | some r => some r | none => original_root), fs')
  let fallback :=
    match original_root with
    | some r =>
      if all_files_exist required_files r fs then finish (some r) fs
      else finish (some scratch_dir) fs
    | none =>
      if all_files_exist required_files env.cwd fs then finish none fs
      else finish (some scratch_dir) fs
  if all_files_exist required_files fast_tmp_dir fs then
    finish (some fast_tmp_dir) fs
  else if all_files_exist required_files scratch_dir fs then
    if too_large then finish (some scratch_dir) fs
    else if io_fails then .error .osError
    else
      match copy_dataset_files required_files scratch_dir fast_tmp_dir fs with
      | .ok fs' => finish (some fast_tmp_dir) fs'
      | .error e => .error e
  else
    match dataset_root with
    | some dsroot =>
      if all_files_exist required_files dsroot fs then
        if io_fails then .error .osError
        else
          match copy_dataset_files required_files dsroot fast_tmp_dir fs with
          | .ok fs' => finish (some dsroot) fs'
          | .error e => .error e
      else fallback
    | none => fallback

/-- A dataset class: its object identity (clsId) and its __name__. -/
structure DatasetClass where
  clsId : Nat
  name : String
deriving DecidableEq, Repr

/-- The required-files lookup at the top of adapted_constructor in
adapted_datasets.py: look the class up in the dataset_files dict by identity;
failing that, scan the dict in order for a class with the same __name__;
failing that, raise.  This step takes no filesystem argument: it happens
before any filesystem access. -/
def adapted_constructor (dataset_files : List (DatasetClass × List FPath))
    (dataset_cls : DatasetClass) : Except ModelError (List FPath) :=
  match dataset_files.find? (fun e => decide (e.1 = dataset_cls)) with
  | some e => .ok e.2
  | none =>
    match dataset_files.find? (fun e => decide (e.1.name = dataset_cls.name)) with
    | some e => .ok e.2
    | none => .error .unknownDatasetError

/-- The root argument produced by a run of _custom_init, or none on error. -/
def resultRoot : Except ModelError (Option FPath × FS) → Option (Option FPath)
  | .ok x => some x.1
  | .error _ => none

/-- The filesystem produced by a run of _custom_init, or none on error. -/
def resultFS : Except ModelError (Option FPath × FS) → Option FS
  | .ok x => some x.2
  | .error _ => none

/-- The error that escaped a run of _custom_init, or none on success. -/
def resultError : Except ModelError (Option FPath × FS) → Option ModelError
  | .ok _ => none
  | .error e => some e

/-- The filesystem produced by copy_dataset_files, or none on error. -/
def copyResultFS : Except ModelError FS → Option FS
  | .ok fs => some fs
  | .error _ => none

/-! Field lemmas for the filesystem operations. -/

@[simp]
theorem fsMkdirParents_files (fs : FS) (p q : FPath) :
    (fsMkdirParents fs p).files q = fs.files q := rfl

@[simp]
theorem fsMkdirParents_dirs (fs : FS) (p q : FPath) :
    (fsMkdirParents fs p).dirs q = (pathLE q p || fs.dirs q) := rfl

@[simp]
theorem fsWrite_files (fs : FS) (p : FPath) (c : String) (q : FPath) :
    (fsWrite fs p c).files q = if q = p then some c else fs.files q := rfl

@[simp]
theorem fsWrite_dirs (fs : FS) (p : FPath) (c : String) (q : FPath) :
    (fsWrite fs p c).dirs q = fs.dirs q := rfl

theorem fsCopyTree_files (fs : FS) (src dst q : FPath) :
    (fsCopyTree fs src dst).files q =
      if pathLT dst q then
        match fs.files (src ++ q.drop dst.length) with
        | some c => some c
        | none => fs.files q
      else fs.files q := rfl

theorem fsCopyTree_dirs (fs : FS) (src dst q : FPath) :
    (fsCopyTree fs src dst).dirs q =
      ((pathLE dst q && fs.dirs (src ++ q.drop dst.length)) || pathLE q dst
        || fs.dirs q) := rfl

/-! Monotonicity: the promotion engine never removes a file or a directory. -/

theorem copyStep_dirs_mono {fs : FS} {sp dp q : FPath} (h : fs.dirs q = true) :
    (copyStep fs sp dp).dirs q = true := by
  unfold copyStep
  cases hd : fsIsDir fs sp with
  | true => simp [hd, fsCopyTree_dirs, h]
  | false =>
    cases he : fsExists fs dp with
    | true => simp [hd, he, h]
    | false =>
      cases hf : fs.files sp with
      | none => simp [hd, he, hf, h]
      | some c => simp [hd, he, hf, h]

theorem copyStep_files_isSome_mono {fs : FS} {sp dp q : FPath}
    (h : (fs.files q).isSome = true) : ((copyStep fs sp dp).files q).isSome = true := by
  unfold copyStep
  cases hd : fsIsDir fs sp with
  | true =>
    rw [if_pos rfl, fsCopyTree_files]
    cases hlt : pathLT dp q with
    | false => simpa [hlt] using h
    | true =>
      simp only [hlt, if_pos]
      cases hsrc : fs.files (sp ++ q.drop dp.length) with
      | none => simpa using h
      | some c => simp
  | false =>
    cases he : fsExists fs dp with
    | true => simp [hd, he, h]
    | false =>
      cases hf : fs.files sp with
      | none => simp [hd, he, hf, h]
      | some c =>
        simp only [hd, he, hf]
        simp only [Bool.false_eq_true, if_false, fsWrite_files]
        cases hq : decide (q = dp) with
        | true => simp [of_decide_eq_true hq]
        | false => simp [of_decide_eq_false hq, h]

theorem copyStep_exists_mono {fs : FS} {sp dp q : FPath} (h : fsExists fs q = true) :
    fsExists (copyStep fs sp dp) q = true := by
  unfold fsExists at h ⊢
  rcases Bool.or_eq_true_iff.1 h with h1 | h1
  · exact Bool.or_eq_true_iff.2 (Or.inl (copyStep_files_isSome_mono h1))
  · exact Bool.or_eq_true_iff.2 (Or.inr (copyStep_dirs_mono h1))

theorem copyOneFile_dirs_mono {src dst : FPath} {fs : FS} {g q : FPath}
    (h : fs.dirs q = true) : (copyOneFile src dst fs g).dirs q = true := by
  unfold copyOneFile
  exact copyStep_dirs_mono (by simp [h])

theorem copyOneFile_files_isSome_mono {src dst : FPath} {fs : FS} {g q : FPath}
    (h : (fs.files q).isSome = true) :
    ((copyOneFile src dst fs g).files q).isSome = true := by
  unfold copyOneFile
  exact copyStep_files_isSome_mono (by simpa using h)

theorem copyOneFile_exists_mono {src dst : FPath} {fs : FS} {g q : FPath}
    (h : fsExists fs q = true) : fsExists (copyOneFile src dst fs g) q = true := by
  unfold copyOneFile
  apply copyStep_exists_mono
  unfold fsExists at h ⊢
  rcases Bool.or_eq_true_iff.1 h with h1 | h1
  · simp [h1]
  · simp [h1]

theorem foldl_dirs_mono {src dst : FPath} {l : List FPath} {fs : FS} {q : FPath}
    (h : fs.dirs q = true) :
    (List.foldl (copyOneFile src dst) fs l).dirs q = true := by
  induction l generalizing fs with
  | nil => exact h
  | cons g t ih => exact ih (copyOneFile_dirs_mono h)

theorem foldl_exists_mono {src dst : FPath} {l : List FPath} {fs : FS} {q : FPath}
    (h : fsExists fs q = true) :
    fsExists (List.foldl (copyOneFile src dst) fs l) q = true := by
  induction l generalizing fs with
  | nil => exact h
  | cons g t ih => exact ih (copyOneFile_exists_mono h)

/-! Stability: when the source and destination roots are incomparable (as the
roots of two distinct storage tiers are), the promotion engine never touches
any path under the source root. -/

theorem pathLE_ext_dropLast_false {src dst : FPath}
    (hsd : pathLE src dst = false) (hds : pathLE dst src = false) (r g : FPath) :
    pathLE (src ++ r) ((dst ++ g).dropLast) = false := by
  by_contra h
  rw [Bool.not_eq_false] at h
  have h2 : pathLE (src ++ r) (dst ++ g) = true :=
    pathLE_trans h (pathLE_dropLast (dst ++ g))
  rw [pathLE_ext_false hsd hds] at h2
  simp at h2

theorem pathLT_ext_false {src dst : FPath}
    (hsd : pathLE src dst = false) (hds : pathLE dst src = false) (r rel : FPath) :
    pathLT (src ++ r) (dst ++ rel) = false := by
  unfold pathLT
  rw [pathLE_ext_false hsd hds]
  rfl

theorem copyOneFile_stable_src {src dst : FPath}
    (hsd : pathLE src dst = false) (hds : pathLE dst src = false)
    (fs : FS) (g r : FPath) :
    (copyOneFile src dst fs g).files (src ++ r) = fs.files (src ++ r) ∧
      (copyOneFile src dst fs g).dirs (src ++ r) = fs.dirs (src ++ r) := by
  unfold copyOneFile copyStep
  have hmk : pathLE (src ++ r) ((dst ++ g).dropLast) = false :=
    pathLE_ext_dropLast_false hsd hds r g
  have hlt : pathLT (dst ++ g) (src ++ r) = false := pathLT_ext_false hds hsd g r
  have hle1 : pathLE (dst ++ g) (src ++ r) = false := pathLE_ext_false hds hsd g r
  have hle2 : pathLE (src ++ r) (dst ++ g) = false := pathLE_ext_false hsd hds r g
  have hne : src ++ r ≠ dst ++ g := by
    intro hcon
    have hcon2 : pathLE (src ++ r) (dst ++ g) = true := hcon ▸ pathLE_refl (src ++ r)
    rw [hle2] at hcon2
    simp at hcon2
  cases hd : fsIsDir (fsMkdirParents fs (dst ++ g).dropLast) (src ++ g) with
  | true =>
    constructor
    · simp [hd, fsCopyTree_files, hlt]
    · simp [hd, fsCopyTree_dirs, hle1, hle2, hmk]
  | false =>
    cases he : fsExists (fsMkdirParents fs (dst ++ g).dropLast) (dst ++ g) with
    | true => exact ⟨by simp [hd, he], by simp [hd, he, hmk]⟩
    | false =>
      cases hf : fs.files (src ++ g) with
      | none => exact ⟨by simp [hd, he, hf], by simp [hd, he, hf, hmk]⟩
      | some c => exact ⟨by simp [hd, he, hf, hne], by simp [hd, he, hf, hmk]⟩

theorem foldl_stable_src {src dst : FPath}
    (hsd : pathLE src dst = false) (hds : pathLE dst src = false)
    (l : List FPath) (fs : FS) (r : FPath) :
    (List.foldl (copyOneFile src dst) fs l).files (src ++ r) = fs.files (src ++ r) ∧
      (List.foldl (copyOneFile src dst) fs l).dirs (src ++ r) = fs.dirs (src ++ r) := by
  induction l generalizing fs with
  | nil => exact ⟨rfl, rfl⟩
  | cons g t ih =>
    have h1 := copyOneFile_stable_src hsd hds fs g r
    have h2 := ih (copyOneFile src dst fs g)
    exact ⟨h2.1.trans h1.1, h2.2.trans h1.2⟩

/-! Creation: after its own loop iteration, a required path exists at the
destination. -/

theorem copyOneFile_creates {src dst : FPath} {fs : FS} {g : FPath}
    (h : fsExists fs (src ++ g) = true) :
    fsExists (copyOneFile src dst fs g) (dst ++ g) = true := by
  unfold copyOneFile copyStep
  cases hd : fsIsDir (fsMkdirParents fs (dst ++ g).dropLast) (src ++ g) with
  | true =>
    simp [hd, fsExists, fsCopyTree_dirs, pathLE_refl]
  | false =>
    cases he : fsExists (fsMkdirParents fs (dst ++ g).dropLast) (dst ++ g) with
    | true => simp [hd, he]
    | false =>
      cases hf : fs.files (src ++ g) with
      | some c =>
        simp only [hd, he, Bool.false_eq_true, if_false, fsMkdirParents_files, hf]
        simp [fsExists]
      | none =>
        exfalso
        unfold fsExists at h
        unfold fsIsDir at hd
        rw [fsMkdirParents_dirs] at hd
        rw [hf] at h
        simp only [Option.isSome_none, Bool.false_or] at h
        rw [h] at hd
        simp at hd

theorem all_files_exist_iff {required : List FPath} {base : FPath} {fs : FS} :
    all_files_exist required base fs = true ↔
      ∀ f ∈ required, fsExists fs (base ++ f) = true := by
  unfold all_files_exist
  exact List.all_eq_true

theorem all_exist_after_foldl {src dst : FPath} (l : List FPath) (fs : FS)
    (h : ∀ f ∈ l, fsExists fs (src ++ f) = true) :
    ∀ f ∈ l, fsExists (List.foldl (copyOneFile src dst) fs l) (dst ++ f) = true := by
  induction l generalizing fs with
  | nil => intro f hf; cases hf
  | cons g t ih =>
    intro f hf
    rw [List.foldl_cons]
    rcases List.mem_cons.1 hf with rfl | hft
    · exact foldl_exists_mono (copyOneFile_creates (h f hf))
    · exact ih (copyOneFile src dst fs g)
        (fun f2 hf2 => copyOneFile_exists_mono (h f2 (List.mem_cons_of_mem g hf2))) f hft

/-- Successful runs of copy_dataset_files are exactly the runs from a source
satisfying the existence oracle, and produce the fold of the copy loop. -/
theorem copy_dataset_files_ok_iff {required : List FPath} {src dst : FPath}
    {fs fs' : FS} :
    copy_dataset_files required src dst fs = .ok fs' ↔
      all_files_exist required src fs = true ∧
        fs' = List.foldl (copyOneFile src dst) fs required := by
  unfold copy_dataset_files
  cases hsrc : all_files_exist required src fs with
  | true => simp [hsrc, eq_comm]
  | false => simp [hsrc]

/-! Idempotence machinery: after a first promotion, re-running every loop
iteration leaves the filesystem unchanged. -/

theorem FS.ext2 {a b : FS} (hf : a.files = b.files) (hd : a.dirs = b.dirs) : a = b := by
  cases a
  cases b
  simp_all

theorem pathLT_le {p q : FPath} (h : pathLT p q = true) : pathLE p q = true :=
  (Bool.and_eq_true_iff.1 h).1

/-- Any copy writing into the destination subtree writes the contents of the
corresponding source path, so a destination point already mirroring its source
point keeps its contents through further loop iterations. -/
theorem copyOneFile_preserves_mirrored {src dst : FPath}
    {fs : FS} {r : FPath} {c : String} (g : FPath)
    (hdst : fs.files (dst ++ r) = some c)
    (hsrc2 : fs.files (src ++ r) = some c) :
    (copyOneFile src dst fs g).files (dst ++ r) = some c := by
  unfold copyOneFile copyStep
  cases hd : fsIsDir (fsMkdirParents fs ((dst ++ g).dropLast)) (src ++ g) with
  | true =>
    simp only [hd, if_true, eq_self_iff_true]
    rw [fsCopyTree_files]
    cases hlt : pathLT (dst ++ g) (dst ++ r) with
    | false => simpa [hlt] using hdst
    | true =>
      simp only [hlt, if_true, eq_self_iff_true, fsMkdirParents_files]
      have hle : pathLE (dst ++ g) (dst ++ r) = true := pathLT_le hlt
      have hkey : (src ++ g) ++ (dst ++ r).drop (dst ++ g).length = src ++ r := by
        have h1 := append_drop_of_pathLE hle
        rw [List.append_assoc] at h1
        have h2 := List.append_cancel_left h1
        rw [List.append_assoc, h2]
      rw [hkey, hsrc2]
  | false =>
    cases he : fsExists (fsMkdirParents fs ((dst ++ g).dropLast)) (dst ++ g) with
    | true => simpa [hd, he] using hdst
    | false =>
      have hne : dst ++ r ≠ dst ++ g := by
        intro hcon
        unfold fsExists at he
        rw [fsMkdirParents_files, ← hcon, hdst] at he
        simp at he
      cases hf : fs.files (src ++ g) with
      | none => simpa [hd, he, hf] using hdst
      | some c2 => simpa [hd, he, hf, hne] using hdst

theorem foldl_preserves_mirrored {src dst : FPath}
    (hsd : pathLE src dst = false) (hds : pathLE dst src = false)
    (l : List FPath) (fs : FS) (r : FPath) (c : String)
    (hdst : fs.files (dst ++ r) = some c)
    (hsrc2 : fs.files (src ++ r) = some c) :
    (List.foldl (copyOneFile src dst) fs l).files (dst ++ r) = some c := by
  induction l generalizing fs with
  | nil => exact hdst
  | cons g t ih =>
    rw [List.foldl_cons]
    exact ih (copyOneFile src dst fs g)
      (copyOneFile_preserves_mirrored g hdst hsrc2)
      ((copyOneFile_stable_src hsd hds fs g r).1.trans hsrc2)

theorem copyOneFile_parent_dirs {src dst : FPath} (fs : FS) (g q : FPath)
    (h : pathLE q ((dst ++ g).dropLast) = true) :
    (copyOneFile src dst fs g).dirs q = true := by
  unfold copyOneFile
  apply copyStep_dirs_mono
  simp [h]

theorem copyOneFile_dir_mirror {src dst : FPath}
    (hsd : pathLE src dst = false) (hds : pathLE dst src = false)
    (fs : FS) (g rel : FPath)
    (hdir : fsIsDir (fsMkdirParents fs ((dst ++ g).dropLast)) (src ++ g) = true)
    (hsrcdir : fs.dirs (src ++ (g ++ rel)) = true) :
    (copyOneFile src dst fs g).dirs (dst ++ (g ++ rel)) = true := by
  unfold copyOneFile copyStep
  simp only [hdir, if_true, eq_self_iff_true]
  rw [fsCopyTree_dirs]
  have h1 : pathLE (dst ++ g) (dst ++ (g ++ rel)) = true := by
    rw [← List.append_assoc]
    exact pathLE_append _ rel
  have h2 : (dst ++ (g ++ rel)).drop (dst ++ g).length = rel := by
    rw [← List.append_assoc]
    exact List.drop_left _ _
  have h3 : (fsMkdirParents fs ((dst ++ g).dropLast)).dirs ((src ++ g) ++ rel) = true := by
    rw [fsMkdirParents_dirs, List.append_assoc, pathLE_ext_dropLast_false hsd hds]
    simpa using hsrcdir
  simp [h1, h2, h3, hsrcdir]

/-- After a full run of the copy loop, re-running any single loop iteration
is the identity: the destination parents exist, directory subtrees are fully
mirrored, and plain files are skipped because they already exist. -/
theorem copyOneFile_idem {src dst : FPath}
    (hsd : pathLE src dst = false) (hds : pathLE dst src = false)
    (required : List FPath) (g : FPath) (hg : g ∈ required) (fs : FS)
    (hsrc : ∀ f ∈ required, fsExists fs (src ++ f) = true) :
    copyOneFile src dst (List.foldl (copyOneFile src dst) fs required) g
      = List.foldl (copyOneFile src dst) fs required := by
  have hex0 : fsExists (List.foldl (copyOneFile src dst) fs required) (dst ++ g) = true :=
    all_exist_after_foldl required fs hsrc g hg
  obtain ⟨l₁, l₂, rfl⟩ := List.append_of_mem hg
  have hsplit : List.foldl (copyOneFile src dst) fs (l₁ ++ g :: l₂)
      = List.foldl (copyOneFile src dst)
          (copyOneFile src dst (List.foldl (copyOneFile src dst) fs l₁) g) l₂ := by
    rw [List.foldl_append, List.foldl_cons]
  set fsA := List.foldl (copyOneFile src dst) fs l₁ with hfsA
  set fsB := copyOneFile src dst fsA g with hfsB
  set fs₁ := List.foldl (copyOneFile src dst) fsB l₂ with hfs₁
  rw [hsplit] at hex0 ⊢
  have hstab1 : ∀ r : FPath, fs₁.files (src ++ r) = fs.files (src ++ r) ∧
      fs₁.dirs (src ++ r) = fs.dirs (src ++ r) := by
    intro r
    have hA := foldl_stable_src hsd hds l₁ fs r
    have hB := copyOneFile_stable_src hsd hds fsA g r
    have hC := foldl_stable_src hsd hds l₂ fsB r
    rw [← hfsA] at hA
    rw [← hfsB] at hB
    rw [← hfs₁] at hC
    exact ⟨hC.1.trans (hB.1.trans hA.1), hC.2.trans (hB.2.trans hA.2)⟩
  have hstabA : ∀ r : FPath, fsA.files (src ++ r) = fs.files (src ++ r) ∧
      fsA.dirs (src ++ r) = fs.dirs (src ++ r) := by
    intro r
    have hA := foldl_stable_src hsd hds l₁ fs r
    rw [← hfsA] at hA
    exact hA
  have hparent : ∀ q, pathLE q ((dst ++ g).dropLast) = true → fs₁.dirs q = true := by
    intro q hq
    have hB2 : fsB.dirs q = true := by
      rw [hfsB]
      exact copyOneFile_parent_dirs fsA g q hq
    rw [hfs₁]
    exact foldl_dirs_mono hB2
  have hmk : fsMkdirParents fs₁ ((dst ++ g).dropLast) = fs₁ := by
    apply FS.ext2
    · rfl
    · funext q
      rw [fsMkdirParents_dirs]
      cases hq : pathLE q ((dst ++ g).dropLast) with
      | false => simp
      | true => simp [hparent q hq]
  simp only [copyOneFile, copyStep]
  rw [hmk]
  cases hd : fsIsDir fs₁ (src ++ g) with
  | false => simp [hd, hex0]
  | true =>
    simp only [hd, if_true, eq_self_iff_true]
    have hdA : fsIsDir (fsMkdirParents fsA ((dst ++ g).dropLast)) (src ++ g) = true := by
      unfold fsIsDir at hd ⊢
      rw [fsMkdirParents_dirs, pathLE_ext_dropLast_false hsd hds, Bool.false_or,
        (hstabA g).2, ← (hstab1 g).2]
      exact hd
    have hfsB_eq : fsB = fsCopyTree (fsMkdirParents fsA ((dst ++ g).dropLast))
        (src ++ g) (dst ++ g) := by
      rw [hfsB]
      simp only [copyOneFile, copyStep]
      simp [hdA]
    apply FS.ext2
    · funext q
      rw [fsCopyTree_files]
      cases hlt : pathLT (dst ++ g) q with
      | false => simp
      | true =>
        simp only [hlt, if_true, eq_self_iff_true]
        have hle : pathLE (dst ++ g) q = true := pathLT_le hlt
        have hqeq : (dst ++ g) ++ q.drop (dst ++ g).length = q := append_drop_of_pathLE hle
        cases hsome : fs₁.files ((src ++ g) ++ q.drop (dst ++ g).length) with
        | none => rfl
        | some c =>
          have hassoc1 : (src ++ g) ++ q.drop (dst ++ g).length
              = src ++ (g ++ q.drop (dst ++ g).length) := List.append_assoc src g _
          have hassoc2 : (dst ++ g) ++ q.drop (dst ++ g).length
              = dst ++ (g ++ q.drop (dst ++ g).length) := List.append_assoc dst g _
          have hsrcfs : fs.files (src ++ (g ++ q.drop (dst ++ g).length)) = some c := by
            rw [← (hstab1 _).1, ← hassoc1]
            exact hsome
          have hsrcA : fsA.files (src ++ (g ++ q.drop (dst ++ g).length)) = some c := by
            rw [(hstabA _).1]
            exact hsrcfs
          have hBdst : fsB.files (dst ++ (g ++ q.drop (dst ++ g).length)) = some c := by
            rw [hfsB_eq, fsCopyTree_files, ← hassoc2, hqeq]
            simp only [hlt, if_true, eq_self_iff_true, fsMkdirParents_files]
            rw [← hqeq, hassoc2, ← hassoc2, List.drop_left, hassoc1, hsrcA]
          have hBsrc : fsB.files (src ++ (g ++ q.drop (dst ++ g).length)) = some c := by
            rw [hfsB]
            rw [(copyOneFile_stable_src hsd hds fsA g _).1]
            exact hsrcA
          have hend : fs₁.files (dst ++ (g ++ q.drop (dst ++ g).length)) = some c := by
            rw [hfs₁]
            exact foldl_preserves_mirrored hsd hds l₂ fsB _ c hBdst hBsrc
          rw [← hassoc2, hqeq] at hend
          exact hend.symm
    · funext q
      rw [fsCopyTree_dirs]
      have hP4 : pathLE q (dst ++ g) = true → fs₁.dirs q = true := by
        intro hq
        have hB2 : fsB.dirs q = true := by
          rw [hfsB_eq, fsCopyTree_dirs]
          simp [hq]
        rw [hfs₁]
        exact foldl_dirs_mono hB2
      have hP3 : pathLE (dst ++ g) q = true →
          fs₁.dirs ((src ++ g) ++ q.drop (dst ++ g).length) = true →
          fs₁.dirs q = true := by
        intro hq hsub
        have hassoc1 : (src ++ g) ++ q.drop (dst ++ g).length
            = src ++ (g ++ q.drop (dst ++ g).length) := List.append_assoc src g _
        have hsrcfs : fs.dirs (src ++ (g ++ q.drop (dst ++ g).length)) = true := by
          rw [← (hstab1 _).2, ← hassoc1]
          exact hsub
        have hsrcA : fsA.dirs (src ++ (g ++ q.drop (dst ++ g).length)) = true := by
          rw [(hstabA _).2]
          exact hsrcfs
        have hB2 : fsB.dirs (dst ++ (g ++ q.drop (dst ++ g).length)) = true := by
          rw [hfsB]
          exact copyOneFile_dir_mirror hsd hds fsA g _ hdA hsrcA
        have hend : fs₁.dirs (dst ++ (g ++ q.drop (dst ++ g).length)) = true := by
          rw [hfs₁]
          exact foldl_dirs_mono hB2
        rw [← List.append_assoc, append_drop_of_pathLE hq] at hend
        exact hend
      cases h1 : fs₁.dirs q with
      | true => simp [h1]
      | false =>
        have hc2 : pathLE q (dst ++ g) = false := by
          cases hc : pathLE q (dst ++ g) with
          | false => rfl
          | true => rw [hP4 hc] at h1; exact absurd h1 (by simp)
        have hc1 : (pathLE (dst ++ g) q && fs₁.dirs ((src ++ g) ++ q.drop (dst ++ g).length))
            = false := by
          cases hcq : pathLE (dst ++ g) q with
          | false => simp
          | true =>
            cases hcs : fs₁.dirs ((src ++ g) ++ q.drop (dst ++ g).length) with
            | false => simp [hcs]
            | true => exact absurd (hP3 hcq hcs) (by simp [h1])
        rw [hc1, hc2]
        rfl

/-- Folding a function that fixes the state over any list is the identity. -/
theorem foldl_eq_self {f : FS → FPath → FS} {fs : FS} {l : List FPath}
    (h : ∀ g ∈ l, f fs g = fs) : List.foldl f fs l = fs := by
  induction l with
  | nil => rfl
  | cons g t ih =>
    rw [List.foldl_cons, h g (by simp)]
    exact ih (fun g2 hg2 => h g2 (by simp [hg2]))

/-! No-clobber machinery for required paths that are plain files at the
source. -/

theorem copyOneFile_noclobber_plain {src dst : FPath}
    (hsd : pathLE src dst = false) (hds : pathLE dst src = false)
    {fs : FS} {g f : FPath} {X : String}
    (hplain : fs.dirs (src ++ g) = false)
    (hX : fs.files (dst ++ f) = some X) :
    (copyOneFile src dst fs g).files (dst ++ f) = some X := by
  unfold copyOneFile copyStep
  have hd : fsIsDir (fsMkdirParents fs ((dst ++ g).dropLast)) (src ++ g) = false := by
    unfold fsIsDir
    rw [fsMkdirParents_dirs, pathLE_ext_dropLast_false hsd hds, Bool.false_or]
    exact hplain
  cases he : fsExists (fsMkdirParents fs ((dst ++ g).dropLast)) (dst ++ g) with
  | true => simpa [hd, he] using hX
  | false =>
    have hne : dst ++ f ≠ dst ++ g := by
      intro hcon
      unfold fsExists at he
      rw [fsMkdirParents_files, ← hcon, hX] at he
      simp at he
    cases hf2 : fs.files (src ++ g) with
    | none => simpa [hd, he, hf2] using hX
    | some c => simpa [hd, he, hf2, hne] using hX

theorem foldl_noclobber_plain {src dst : FPath}
    (hsd : pathLE src dst = false) (hds : pathLE dst src = false)
    (l : List FPath) (fs : FS) (f : FPath) (X : String)
    (hplain : ∀ g ∈ l, fs.dirs (src ++ g) = false)
    (hX : fs.files (dst ++ f) = some X) :
    (List.foldl (copyOneFile src dst) fs l).files (dst ++ f) = some X := by
  induction l generalizing fs with
  | nil => exact hX
  | cons g t ih =>
    rw [List.foldl_cons]
    apply ih (copyOneFile src dst fs g)
    · intro g2 hg2
      rw [(copyOneFile_stable_src hsd hds fs g g2).2]
      exact hplain g2 (List.mem_cons_of_mem g hg2)
    · exact copyOneFile_noclobber_plain hsd hds (hplain g (List.mem_cons_self g t)) hX

/-! Concrete cluster states used to evaluate the resolver at specific
inputs. -/

/-- A cluster environment: SLURM_TMPDIR is /tmp, SCRATCH is /scratch, and the
current working directory is /cwd. -/
def tierEnv : InitEnv :=
  ⟨["tmp"], ["scratch"], ["cwd"]⟩

/-- The required files of the dataset exist only under the registered
read-only root /net/tv; the fast tier and scratch are empty. -/
def netFS : FS :=
  FS.empty.addFile ["net", "tv", "MNIST", "raw.pt"] "A"

/-- The required files exist only under scratch. -/
def scratchFS : FS :=
  FS.empty.addFile ["scratch", "data", "MNIST", "raw.pt"] "A"

/-- The required files exist only under the current working directory. -/
def cwdFS : FS :=
  FS.empty.addFile ["cwd", "MNIST", "raw.pt"] "A"

/-- The required directory d exists in both roots, with different contents for
the nested file d/x. -/
def clobberFS : FS :=
  (FS.empty.addFile ["s", "d", "x"] "new").addFile ["t", "d", "x"] "X"

/-- The required path a is a plain file in both roots, with different
contents. -/
def noclobberFS : FS :=
  (FS.empty.addFile ["s", "a"] "new").addFile ["t", "a"] "X"

/-- A source root holding the single required directory MNIST. -/
def promoSrcFS : FS :=
  FS.empty.addFile ["net", "MNIST", "raw.pt"] "A"

/-- A source root for the idempotence witness. -/
def idemFS : FS :=
  FS.empty.addFile ["srcroot", "MNIST", "raw.pt"] "A"

/-- A dataset_files registry with one entry, registered under the name
MNIST. -/
def tvRegistry : List (DatasetClass × List FPath) :=
  [(⟨0, "MNIST"⟩, [["MNIST"]])]

/-- C1: with the required files present only under the registered read-only
shared tier root, and the dataset not size-excepted, _custom_init does copy
the files into the fastest tier (the fast tier satisfies the oracle in the
resulting state though it did not before), but the root it returns is the
registered slow root, not the fastest tier root: the code contradicts its own
docstring, which says the dataset is then read from SLURM_TMPDIR. -/
theorem c1_copies_but_returns_slow_root :
    all_files_exist [["MNIST"]] ["net", "tv"] netFS = true
      ∧ all_files_exist [["MNIST"]] (tierEnv.slurm_tmpdir ++ ["data"]) netFS = false
      ∧ all_files_exist [["MNIST"]] (tierEnv.scratch ++ ["data"]) netFS = false
      ∧ resultRoot (_custom_init [["MNIST"]] false (some ["net", "tv"]) none tierEnv false netFS)
          = some (some ["net", "tv"])
      ∧ (["net", "tv"] : FPath) ≠ tierEnv.slurm_tmpdir ++ ["data"]
      ∧ (resultFS (_custom_init [["MNIST"]] false (some ["net", "tv"]) none tierEnv false netFS)).map
          (all_files_exist [["MNIST"]] (tierEnv.slurm_tmpdir ++ ["data"])) = some true := by
  decide

/-- C2: with the dataset size-excepted (too_large true) and its files present
only under the registered read-only root, _custom_init still copies the files
into the fastest tier: the branch for the registered root never consults
too_large_for_slurm_tmpdir, although the scratch branch does and the docstring
promises copying only when the dataset fits. The returned root is the slow
root, as the claim says. -/
theorem c2_size_exception_ignored_for_shared_tier :
    all_files_exist [["MNIST"]] ["net", "tv"] netFS = true
      ∧ all_files_exist [["MNIST"]] (tierEnv.slurm_tmpdir ++ ["data"]) netFS = false
      ∧ resultRoot (_custom_init [["MNIST"]] true (some ["net", "tv"]) none tierEnv false netFS)
          = some (some ["net", "tv"])
      ∧ (resultFS (_custom_init [["MNIST"]] true (some ["net", "tv"]) none tierEnv false netFS)).map
          (all_files_exist [["MNIST"]] (tierEnv.slurm_tmpdir ++ ["data"])) = some true := by
  decide

/-- C3 counterexample: the required directory d contains the file d/x, which
already exists at the destination with contents X; after promotion the
destination file holds the source contents instead, because
shutil.copytree(dirs_exist_ok=True) overwrites files nested inside a required
directory. -/
theorem c3_counterexample_nested_file_clobbered :
    clobberFS.files ["t", "d", "x"] = some "X"
      ∧ (copyResultFS (copy_dataset_files [["d"]] ["s"] ["t"] clobberFS)).map
          (fun fs => fs.files ["t", "d", "x"]) = some (some "new") := by
  decide

/-- C3 amended: when every required path is a plain file at the source (no
required directories), a required file that already exists at the destination
with contents X keeps contents X through a promotion between two incomparable
tier roots; files nested inside a required directory are, by contrast,
overwritten (see the counterexample). -/
theorem c3_noclobber_plain_required_files (required : List FPath)
    (source_dir dest_dir : FPath) (fs fs' : FS) (f : FPath) (X : String)
    (hsd : pathLE source_dir dest_dir = false)
    (hds : pathLE dest_dir source_dir = false)
    (hplain : ∀ g ∈ required, fs.dirs (source_dir ++ g) = false)
    (hf : f ∈ required)
    (hX : fs.files (dest_dir ++ f) = some X)
    (hok : copy_dataset_files required source_dir dest_dir fs = .ok fs') :
    fs'.files (dest_dir ++ f) = some X := by
  obtain ⟨hsrc, rfl⟩ := copy_dataset_files_ok_iff.1 hok
  exact foldl_noclobber_plain hsd hds required fs f X hplain hX

/-- C3 amended, witness at a concrete input. -/
theorem c3_noclobber_witness :
    (List.foldl (copyOneFile ["s"] ["t"]) noclobberFS [["a"]]).files (["t"] ++ ["a"])
      = some "X" :=
  c3_noclobber_plain_required_files [["a"]] ["s"] ["t"] noclobberFS
    (List.foldl (copyOneFile ["s"] ["t"]) noclobberFS [["a"]]) ["a"] "X"
    (by decide) (by decide) (by decide) (by decide) (by decide)
    (copy_dataset_files_ok_iff.2 ⟨by decide, rfl⟩)

/-- C4 counterexample: scratch satisfies the oracle, the fast tier does not,
and the operating system raises an OSError during the copy into the fast
tier; _custom_init propagates the error instead of catching it and
constructing from the already-validated scratch root — no try/except
surrounds the copy in the source. -/
theorem c4_counterexample_io_error_not_caught :
    all_files_exist [["MNIST"]] (tierEnv.scratch ++ ["data"]) scratchFS = true
      ∧ resultError (_custom_init [["MNIST"]] false none none tierEnv true scratchFS)
          = some .osError := by
  decide

/-- C4 amended: whenever _custom_init reaches a copy into the fastest tier —
from scratch (scratch satisfies the oracle and the dataset is not
size-excepted) or from the registered dataset root (scratch does not satisfy,
the registered root does, any size-exception status) — and that copy raises
an I/O error, the error propagates out of _custom_init; the fall-back to the
slower validated root is a design intention that the code does not
implement. -/
theorem c4_io_error_propagates (required : List FPath) (too_large : Bool)
    (dataset_root original_root : Option FPath) (env : InitEnv) (fs : FS)
    (hfast : all_files_exist required (env.slurm_tmpdir ++ ["data"]) fs = false)
    (hcopy :
      (all_files_exist required (env.scratch ++ ["data"]) fs = true ∧ too_large = false)
        ∨ (all_files_exist required (env.scratch ++ ["data"]) fs = false
            ∧ ∃ r, dataset_root = some r ∧ all_files_exist required r fs = true)) :
    _custom_init required too_large dataset_root original_root env true fs
      = .error .osError := by
  unfold _custom_init
  rcases hcopy with ⟨hscratch, rfl⟩ | ⟨hscratch, r, rfl, hr⟩
  · simp [hfast, hscratch]
  · simp [hfast, hscratch, hr]

/-- C4 amended, witness at concrete inputs covering both copy sites: the
scratch-to-fast copy, and the registered-root-to-fast copy (here even with
the dataset size-excepted, which that branch ignores). -/
theorem c4_witness :
    _custom_init [["MNIST"]] false none none tierEnv true scratchFS = .error .osError
      ∧ _custom_init [["MNIST"]] true (some ["net", "tv"]) none tierEnv true netFS
          = .error .osError :=
  ⟨c4_io_error_propagates [["MNIST"]] false none none tierEnv scratchFS (by decide)
      (Or.inl ⟨by decide, rfl⟩),
    c4_io_error_propagates [["MNIST"]] true (some ["net", "tv"]) none tierEnv netFS (by decide)
      (Or.inr ⟨by decide, ["net", "tv"], rfl, by decide⟩)⟩

/-- C5: for a non-empty required file set, after copy_dataset_files returns
without error (which requires the source to satisfy the existence oracle),
the existence oracle holds at the destination. -/
theorem c5_promote_completeness (required : List FPath) (source_dir dest_dir : FPath)
    (fs fs' : FS) (hne : required ≠ [])
    (hok : copy_dataset_files required source_dir dest_dir fs = .ok fs') :
    all_files_exist required dest_dir fs' = true := by
  obtain ⟨hsrc, rfl⟩ := copy_dataset_files_ok_iff.1 hok
  rw [all_files_exist_iff] at hsrc ⊢
  exact all_exist_after_foldl required fs hsrc

/-- C5, witness at a concrete input. -/
theorem c5_witness :
    all_files_exist [["MNIST"]] ["fast", "data"]
      (List.foldl (copyOneFile ["net"] ["fast", "data"]) promoSrcFS [["MNIST"]]) = true :=
  c5_promote_completeness [["MNIST"]] ["net"] ["fast", "data"] promoSrcFS
    (List.foldl (copyOneFile ["net"] ["fast", "data"]) promoSrcFS [["MNIST"]])
    (by decide) (copy_dataset_files_ok_iff.2 ⟨by decide, rfl⟩)

/-- C6: calling copy_dataset_files a second time with the same arguments,
between two incomparable tier roots, succeeds and returns exactly the
filesystem produced by the first call: the destination parents already exist,
directory subtrees are already fully mirrored so re-copying them rewrites
identical contents, and plain files are skipped because they exist. -/
theorem c6_promote_idempotent (required : List FPath) (source_dir dest_dir : FPath)
    (fs fs₁ : FS)
    (hsd : pathLE source_dir dest_dir = false)
    (hds : pathLE dest_dir source_dir = false)
    (h1 : copy_dataset_files required source_dir dest_dir fs = .ok fs₁) :
    copy_dataset_files required source_dir dest_dir fs₁ = .ok fs₁ := by
  obtain ⟨hsrc, rfl⟩ := copy_dataset_files_ok_iff.1 h1
  have hsrc2 := all_files_exist_iff.1 hsrc
  apply copy_dataset_files_ok_iff.2
  constructor
  · rw [all_files_exist_iff]
    intro f hf
    exact foldl_exists_mono (hsrc2 f hf)
  · exact (foldl_eq_self (fun g hg => copyOneFile_idem hsd hds required g hg fs hsrc2)).symm

/-- C6, witness at a concrete input. -/
theorem c6_witness :
    copy_dataset_files [["MNIST"]] ["srcroot"] ["dstroot"]
        (List.foldl (copyOneFile ["srcroot"] ["dstroot"]) idemFS [["MNIST"]])
      = .ok (List.foldl (copyOneFile ["srcroot"] ["dstroot"]) idemFS [["MNIST"]]) :=
  c6_promote_idempotent [["MNIST"]] ["srcroot"] ["dstroot"] idemFS
    (List.foldl (copyOneFile ["srcroot"] ["dstroot"]) idemFS [["MNIST"]])
    (by decide) (by decide) (copy_dataset_files_ok_iff.2 ⟨by decide, rfl⟩)

/-- C7: whenever the source does not satisfy the existence oracle,
copy_dataset_files fails with the promotion error (the assert at the top of
the function) and performs no copy: the assert precedes the loop, so the
error result carries no modified filesystem. -/
theorem c7_promote_requires_complete_source (required : List FPath)
    (source_dir dest_dir : FPath) (fs : FS)
    (h : all_files_exist required source_dir fs = false) :
    copy_dataset_files required source_dir dest_dir fs = .error .promotionError := by
  unfold copy_dataset_files
  simp [h]

/-- C7, witness at a concrete input. -/
theorem c7_witness :
    copy_dataset_files [["MNIST"]] ["emptyroot"] ["destroot"] FS.empty
      = .error .promotionError :=
  c7_promote_requires_complete_source [["MNIST"]] ["emptyroot"] ["destroot"] FS.empty
    (by decide)

/-- C8: when the dataset class is not a key of dataset_files, the adapter
scans the registry in order for a class with the same name: if one is found
its file list is used and no error is raised, and only if that name-based
lookup also fails is the unknown-dataset error raised.  The lookup takes no
filesystem argument: it happens before any filesystem access. -/
theorem c8_unknown_dataset_after_name_fallback
    (dataset_files : List (DatasetClass × List FPath)) (dataset_cls : DatasetClass)
    (hdirect : dataset_files.find? (fun e => decide (e.1 = dataset_cls)) = none) :
    adapted_constructor dataset_files dataset_cls =
      match dataset_files.find? (fun e => decide (e.1.name = dataset_cls.name)) with
      | some e => .ok e.2
      | none => .error .unknownDatasetError := by
  unfold adapted_constructor
  rw [hdirect]

/-- C8, witness: a class with a fresh identity but a registered name resolves
to the registered file list. -/
theorem c8_witness :
    adapted_constructor tvRegistry ⟨1, "MNIST"⟩ = .ok [["MNIST"]] := by
  rw [c8_unknown_dataset_after_name_fallback tvRegistry ⟨1, "MNIST"⟩ (by decide)]
  rfl

/-- C9 counterexample: the current working directory satisfies the oracle, no
tier and no registered root does, and the caller supplied a root that does
not satisfy it; _custom_init returns the scratch fallback, not the current
working directory: the cwd branch requires the caller-supplied root to be
None. -/
theorem c9_counterexample_caller_root_skips_cwd :
    all_files_exist [["MNIST"]] tierEnv.cwd cwdFS = true
      ∧ all_files_exist [["MNIST"]] ["userroot"] cwdFS = false
      ∧ resultRoot (_custom_init [["MNIST"]] false none (some ["userroot"]) tierEnv false cwdFS)
          = some (some (tierEnv.scratch ++ ["data"])) := by
  decide

/-- C9 amended: only when the caller supplied no root does the
current-working-directory check fire: with no tier and no registered root
satisfying the oracle, a caller-supplied root of None and a satisfying cwd,
_custom_init leaves the root argument unchanged (None) and the filesystem
untouched, rather than falling through to the scratch fallback. -/
theorem c9_cwd_used_only_without_caller_root (required : List FPath)
    (too_large : Bool) (dataset_root : Option FPath) (env : InitEnv)
    (io_fails : Bool) (fs : FS)
    (hfast : all_files_exist required (env.slurm_tmpdir ++ ["data"]) fs = false)
    (hscratch : all_files_exist required (env.scratch ++ ["data"]) fs = false)
    (hdsroot : ∀ r, dataset_root = some r → all_files_exist required r fs = false)
    (hcwd : all_files_exist required env.cwd fs = true) :
    _custom_init required too_large dataset_root none env io_fails fs
      = .ok (none, fs) := by
  unfold _custom_init
  cases dataset_root with
  | none => simp [hfast, hscratch, hcwd]
  | some r => simp [hfast, hscratch, hcwd, hdsroot r rfl]

/-- C9 amended, witness at a concrete input. -/
theorem c9_witness :
    _custom_init [["MNIST"]] false none none tierEnv false cwdFS = .ok (none, cwdFS) :=
  c9_cwd_used_only_without_caller_root [["MNIST"]] false none tierEnv false cwdFS
    (by decide) (by decide) (fun r h => Option.noConfusion h) (by decide)

/-- C10: with an empty required-file sequence, all_files_exist is true for
every base directory and every filesystem, including one where the base does
not exist at all; the guarantee that a missing base yields false therefore
depends on the required set being non-empty. -/
theorem c10_empty_required_always_satisfied (base_dir : FPath) (fs : FS) :
    all_files_exist [] base_dir fs = true := rfl

end MilaDatamodules
